import Mathlib

/-!
Shallow embedding of the push-driven cache synchronization layer
`onCacheEntryAddedInvalidate` from
`littlelambocoin-blockchain-gui/packages/wallets/src/hooks/useIsWalletSynced.ts`
(lines 10-67 of the source file).

The source function is an async JavaScript handler:

  function onCacheEntryAddedInvalidate(rtkQuery, invalidates) {
    return async (args, api) => {
      const { cacheDataLoaded, cacheEntryRemoved, updateCachedData, dispatch } = api;
      const unsubscribes = [];
      try {
        await cacheDataLoaded;                                   -- line 29
        await Promise.all(invalidates.map(async (invalidate) => { -- line 31
          const { command, service, endpoint, onUpdate, skip } = invalidate;
          const response = await rtkQuery({ command, service,     -- line 34
            args: [(data) => { ... push handler, lines 37-55 ... }] }, api, {});
          if (response.data) unsubscribes.push(response.data);    -- lines 58-60
        }));
      } finally {
        await cacheEntryRemoved;                                  -- line 63
        unsubscribes.forEach((unsubscribe) => unsubscribe());     -- line 64
      }
    }
  }

We split the embedding in two parts.

1. The push handler (lines 37-55) is a synchronous function of the incoming
   payload; we embed it as a pure state transition `pushHandler` on a
   `CacheState` that carries the cached value together with a trace of the
   effects performed (recipe invocations via `updateCachedData`, and
   `dispatch(currentEndpoint.initiate(args, {subscribe:false, forceRefetch:true}))`
   actions), so that number and order of effects are observable.

2. The async lifecycle (lines 27-65) runs on a single-threaded event loop.
   Its observable behaviour is determined by: whether `cacheDataLoaded`
   resolves or rejects; for each descriptor, how its `rtkQuery` promise
   settles (rejects, resolves without truthy `data`, or resolves with an
   unsubscribe handle); the order in which the per-descriptor promises
   settle (which is the order of the `unsubscribes.push` calls at line 59);
   and how many of those settlements happen before the `finally` block's
   `forEach` at line 64 runs.  We package these choices as a `Schedule` and
   give the resulting observables as a function `run` of the schedule:
   - all `rtkQuery` calls are issued synchronously when the `map` at line 31
     runs (each async arrow function executes up to its first `await`
     immediately), so the call list does not depend on outcomes;
   - `Promise.all` settles as soon as one member rejects, or after all
     members settle; the `finally` block then awaits `cacheEntryRemoved`
     and runs the `forEach` over whatever is in `unsubscribes` at that
     moment, which is why `Schedule.Valid` only requires the teardown cut
     point to lie at or after the settlement that settles `Promise.all`;
   - a per-descriptor continuation that resumes after the `forEach` has run
     still pushes its handle into `unsubscribes` (the array outlives the
     `forEach`), but nothing ever invokes it: `recordedEver` versus
     `invoked` below;
   - `forEach` invokes the collected handles in array order and an
     exception thrown by one handle aborts the loop, so later handles are
     not invoked (`takeThrough`).
-/

namespace CacheInvalidate

/-- The redux action produced at lines 50-53 of the source:
`currentEndpoint.initiate(args, { subscribe: false, forceRefetch: true })`,
where `currentEndpoint = endpoint()` (line 49).  `E` is the type of the
dependent endpoint object returned by the `endpoint` factory and `A` the
type of the original query arguments. -/
structure InitiateAction (E A : Type) where
  endpoint : E
  args : A
  subscribe : Bool
  forceRefetch : Bool
deriving DecidableEq

/-- One observable effect of the push handler: an invocation of the
`updateCachedData` mutation recipe (lines 43-45) with the push payload it
received, or a `dispatch` of an initiate action (line 50). -/
inductive Effect (P E A : Type) where
  | update (payload : P)
  | dispatch (act : InitiateAction E A)
deriving DecidableEq

/-- Runtime shape of one element of `invalidates` (the `Invalidate` union
type, source lines 12-22).  The TypeScript type is a union whose variants
carry `endpoint` XOR `onUpdate`, but the union is erased at runtime and the
destructuring at line 32 reads all five fields off whatever object was
passed, so the runtime shape is a record in which `endpoint`, `onUpdate`
and `skip` are each optionally present.  `onUpdate` mutates a draft of the
cached value; we embed the mutation functionally as `V → P → A → V`
(draft in, new value out). -/
structure Invalidate (V P E A : Type) where
  command : String
  service : String
  endpoint : Option (Unit → E) := none
  onUpdate : Option (V → P → A → V) := none
  skip : Option (P → A → Bool) := none

/-- The state the push handler acts on: the cache entry's cached value,
plus the trace of effects performed so far (for observability of counts
and order). -/
structure CacheState (V P E A : Type) where
  cached : V
  trace : List (Effect P E A)
deriving DecidableEq

/-- Lines 42-54 of the source: the effect part of the push handler, run
once the `skip` guard has passed.  If `onUpdate` is present the cached
value is replaced by the recipe's result and the recipe invocation is
recorded (lines 42-46); then, independently, if `endpoint` is present the
factory is invoked and
`dispatch(currentEndpoint.initiate(args, { subscribe: false, forceRefetch: true }))`
is recorded (lines 48-54). -/
def applyEvent {V P E A : Type} (inv : Invalidate V P E A) (args : A) (data : P)
    (st : CacheState V P E A) : CacheState V P E A :=
  let st1 :=
    match inv.onUpdate with
    | some recipe =>
        { st with
          cached := recipe st.cached data args
          trace := st.trace ++ [Effect.update data] }
    | none => st
  match inv.endpoint with
  | some factory =>
      { st1 with
        trace := st1.trace ++ [Effect.dispatch ⟨factory (), args, false, true⟩] }
  | none => st1

/-- Lines 37-55 of the source: the callback passed to `rtkQuery` as the
single element of `args`.  Line 38 first checks
`if (skip && !skip(data, args)) return;` — when `skip` is present and
returns false the event is dropped, otherwise the effects run. -/
def pushHandler {V P E A : Type} (inv : Invalidate V P E A) (args : A) (data : P)
    (st : CacheState V P E A) : CacheState V P E A :=
  match inv.skip with
  | some skipFn =>
      if skipFn data args then applyEvent inv args data st else st
  | none => applyEvent inv args data st

/-- A sequence of push events delivered to one descriptor's handler, in
arrival order (the handler at lines 37-55 is invoked once per push). -/
def applyPushes {V P E A : Type} (inv : Invalidate V P E A) (args : A)
    (events : List P) (st : CacheState V P E A) : CacheState V P E A :=
  events.foldl (fun s d => pushHandler inv args d s) st

/-- Whether the guard at line 38 lets a push event through: true when
`skip` is absent or returns true. -/
def accepts {V P E A : Type} (inv : Invalidate V P E A) (data : P) (args : A) : Bool :=
  match inv.skip with
  | some skipFn => skipFn data args
  | none => true

/-- The payloads for which the `updateCachedData` recipe ran, in order. -/
def updateLog {V P E A : Type} (st : CacheState V P E A) : List P :=
  st.trace.filterMap fun e =>
    match e with
    | Effect.update p => some p
    | Effect.dispatch _ => none

/-- The initiate actions dispatched, in order. -/
def dispatchLog {V P E A : Type} (st : CacheState V P E A) : List (InitiateAction E A) :=
  st.trace.filterMap fun e =>
    match e with
    | Effect.update _ => none
    | Effect.dispatch a => some a

/-- How one descriptor's `rtkQuery` promise (line 34) settles.  `rejects`
is a promise rejection; `resolves data` is a resolution whose response has
`response.data = data`, where `some h` is a truthy unsubscribe handle
(identified by a number) and `none` a response without a truthy `data`
field (line 58's guard fails). -/
inductive CallOutcome where
  | rejects
  | resolves (data : Option ℕ)
deriving DecidableEq

/-- The unsubscribe handle a settlement contributes to `unsubscribes`
(lines 58-60): only a resolution with truthy `data` contributes. -/
def handleOf : CallOutcome → Option ℕ
  | CallOutcome.resolves (some h) => some h
  | CallOutcome.resolves none => none
  | CallOutcome.rejects => none

/-- One event-loop interleaving of the handler for `n` descriptors:
whether `cacheDataLoaded` (line 29) resolves (true) or rejects (false);
how each descriptor's `rtkQuery` promise settles; the order in which those
promises settle (a permutation of the descriptor indices — this is the
order of the `unsubscribes.push` calls); and how many of those settlements
happen before the `finally` block's `forEach` (line 64) runs. -/
structure Schedule (n : ℕ) where
  loadedResolves : Bool
  outcomes : Fin n → CallOutcome
  settleOrder : List (Fin n)
  settledBeforeTeardown : ℕ

/-- The number of settlements after which `Promise.all` (line 31) settles:
at the first rejection if there is one, otherwise after all members
settle. -/
def promiseAllSettled {n : ℕ} (s : Schedule n) : ℕ :=
  match s.settleOrder.findIdx? (fun i => decide (s.outcomes i = CallOutcome.rejects)) with
  | some idx => idx + 1
  | none => s.settleOrder.length

/-- A schedule is an actual event-loop interleaving when the settle order
is a permutation of the descriptors and the teardown `forEach` runs no
earlier than `Promise.all` settles (the code reaches the `finally` block
only after the `await` at line 31 completes; `cacheEntryRemoved` may then
resolve at any later point, during which further settlements may occur). -/
def Schedule.Valid {n : ℕ} (s : Schedule n) : Prop :=
  s.settleOrder.Perm (List.finRange n) ∧ promiseAllSettled s ≤ s.settledBeforeTeardown

/-- One `rtkQuery` invocation (line 34): the request carries the
descriptor's `command` and `service` and an `args` array holding exactly
the push handler callback. -/
structure RpcCall (V P E A : Type) where
  command : String
  service : String
  args : List (P → CacheState V P E A → CacheState V P E A)

/-- `unsubscribes.forEach((unsubscribe) => unsubscribe())` (line 64) when
invoking a handle may throw: the handles actually invoked are the longest
prefix up to and including the first throwing handle (`forEach` does not
catch, so the exception aborts the iteration after that call). -/
def takeThrough (throws : ℕ → Bool) : List ℕ → List ℕ
  | [] => []
  | h :: t => if throws h then [h] else h :: takeThrough throws t

/-- Observables of one execution of the handler. -/
structure RunResult (V P E A : Type) where
  /-- the `rtkQuery` calls issued at line 34, in `invalidates` order -/
  calls : List (RpcCall V P E A)
  /-- content of `unsubscribes` at the moment the `forEach` at line 64 runs -/
  collected : List ℕ
  /-- every handle ever pushed into `unsubscribes`, including pushes by
  continuations that resume only after the `forEach` has run -/
  recordedEver : List ℕ
  /-- the handles the `forEach` at line 64 actually invoked, in order -/
  invoked : List ℕ
  /-- the `finally` block awaited `cacheEntryRemoved` (line 63) -/
  awaitedRemoved : Bool

/-- The observable behaviour of the async handler (lines 25-65) under a
given schedule.  If `cacheDataLoaded` rejects, the `await` at line 29
throws: the `map` at line 31 never runs, so no `rtkQuery` call is issued
and `unsubscribes` stays empty; the `finally` block still awaits
`cacheEntryRemoved` and runs the (empty) `forEach`.  If it resolves, every
descriptor's `rtkQuery` call is issued when the `map` runs (before any
settlement); each settlement with truthy `response.data` pushes its handle
(lines 58-60) in settlement order; the `forEach` invokes the handles
pushed by the first `settledBeforeTeardown` settlements. -/
def run {V P E A : Type} (invalidates : List (Invalidate V P E A)) (qargs : A)
    (s : Schedule invalidates.length) (throws : ℕ → Bool) : RunResult V P E A :=
  if s.loadedResolves then
    let collected := (s.settleOrder.take s.settledBeforeTeardown).filterMap
      fun i => handleOf (s.outcomes i)
    { calls := invalidates.map fun inv =>
        ⟨inv.command, inv.service, [fun data st => pushHandler inv qargs data st]⟩
      collected := collected
      recordedEver := s.settleOrder.filterMap fun i => handleOf (s.outcomes i)
      invoked := takeThrough throws collected
      awaitedRemoved := true }
  else
    { calls := [], collected := [], recordedEver := [], invoked := [], awaitedRemoved := true }

/-! Concrete inputs used to evaluate the model on closed instances. -/

/-- Scenario from the spec: a descriptor whose `skip` compares the push's
wallet id with the query's wallet id; a push for a different wallet id
leaves the cache entry unchanged. -/
def widInv : Invalidate ℕ ℕ Unit ℕ :=
  { command := "sub_wallet", service := "littlelambocoin_wallet",
    onUpdate := some fun _draft p _args => p,
    skip := some fun p a => p == a }

/-- Scenario descriptor from the spec:
`{command: "sub_balance", onUpdate: (d,p) => { d.balance = p.balance }}`,
with the cached value reduced to the balance itself. -/
def balInv : Invalidate ℕ ℕ Unit ℕ :=
  { command := "sub_balance", service := "littlelambocoin_wallet",
    onUpdate := some fun _draft p _args => p }

/-- Descriptor carrying only a dependent endpoint (identified by `42`). -/
def depInv : Invalidate ℕ ℕ ℕ ℕ :=
  { command := "sub_dep", service := "littlelambocoin_wallet",
    endpoint := some fun _ => 42 }

/-- Descriptor carrying both an `onUpdate` recipe and a dependent
endpoint, as the runtime permits despite the TypeScript union type. -/
def bothInv : Invalidate ℕ ℕ ℕ ℕ :=
  { command := "sub_both", service := "littlelambocoin_wallet",
    endpoint := some fun _ => 42,
    onUpdate := some fun _draft p _args => p }

/-- A two-descriptor set for concrete lifecycle executions. -/
def exInvs : List (Invalidate ℕ ℕ ℕ ℕ) :=
  [ { command := "sub_a", service := "littlelambocoin_wallet" },
    { command := "sub_b", service := "littlelambocoin_wallet" } ]

/-- A three-descriptor set for concrete lifecycle executions. -/
def exInvs3 : List (Invalidate ℕ ℕ ℕ ℕ) :=
  [ { command := "sub_a", service := "littlelambocoin_wallet" },
    { command := "sub_b", service := "littlelambocoin_wallet" },
    { command := "sub_c", service := "littlelambocoin_wallet" } ]

/-- Interleaving in which descriptor 0's subscribe call rejects first
(settling `Promise.all` after one settlement), the cache entry is removed
and the teardown pass runs right away, and only afterwards does
descriptor 1's subscribe call resolve with handle 7. -/
def lateSched : Schedule 2 :=
  { loadedResolves := true
    outcomes := fun i =>
      if i.val = 0 then CallOutcome.rejects else CallOutcome.resolves (some 7)
    settleOrder := [0, 1]
    settledBeforeTeardown := 1 }

/-- Interleaving in which both subscribe calls resolve with handles 10 and
11 before the cache entry is removed. -/
def fullSched : Schedule 2 :=
  { loadedResolves := true
    outcomes := fun i => CallOutcome.resolves (some (10 + i.val))
    settleOrder := [0, 1]
    settledBeforeTeardown := 2 }

/-- Interleaving in which descriptor 0's subscribe call resolves without a
truthy `data` field and descriptor 1's resolves with handle 5. -/
def noneSched : Schedule 2 :=
  { loadedResolves := true
    outcomes := fun i =>
      if i.val = 0 then CallOutcome.resolves none else CallOutcome.resolves (some 5)
    settleOrder := [0, 1]
    settledBeforeTeardown := 2 }

/-- Interleaving in which descriptor 0's subscribe call rejects and
descriptor 1's resolves with handle 5 before the teardown pass. -/
def rejSched : Schedule 2 :=
  { loadedResolves := true
    outcomes := fun i =>
      if i.val = 0 then CallOutcome.rejects else CallOutcome.resolves (some 5)
    settleOrder := [0, 1]
    settledBeforeTeardown := 2 }

/-- Interleaving in which the three subscribe calls resolve with handles
10, 11 and 12, all before the cache entry is removed. -/
def throwSched : Schedule 3 :=
  { loadedResolves := true
    outcomes := fun i => CallOutcome.resolves (some (10 + i.val))
    settleOrder := [0, 1, 2]
    settledBeforeTeardown := 3 }

/-- Interleaving in which the cache entry is removed before its data ever
loads: `cacheDataLoaded` rejects. -/
def noLoadSched : Schedule 2 :=
  { loadedResolves := false
    outcomes := fun _ => CallOutcome.rejects
    settleOrder := [0, 1]
    settledBeforeTeardown := 0 }

/-! Helper lemmas about the push handler. -/

lemma pushHandler_accepted {V P E A : Type} (inv : Invalidate V P E A) (args : A)
    (data : P) (st : CacheState V P E A) (h : accepts inv data args = true) :
    pushHandler inv args data st = applyEvent inv args data st := by
  unfold pushHandler
  unfold accepts at h
  cases hs : inv.skip with
  | none => rfl
  | some f =>
      rw [hs] at h
      simp at h
      simp [h]

lemma pushHandler_dropped {V P E A : Type} (inv : Invalidate V P E A) (args : A)
    (data : P) (st : CacheState V P E A) (h : accepts inv data args = false) :
    pushHandler inv args data st = st := by
  unfold pushHandler
  unfold accepts at h
  cases hs : inv.skip with
  | none => rw [hs] at h; exact absurd h (by simp)
  | some f =>
      rw [hs] at h
      simp at h
      simp [h]

lemma applyEvent_trace {V P E A : Type} (inv : Invalidate V P E A) (args : A)
    (data : P) (st : CacheState V P E A) :
    (applyEvent inv args data st).trace = st.trace ++
      ((match inv.onUpdate with
        | some _ => [Effect.update data]
        | none => []) ++
       (match inv.endpoint with
        | some factory => [Effect.dispatch ⟨factory (), args, false, true⟩]
        | none => ([] : List (Effect P E A)))) := by
  unfold applyEvent
  cases inv.onUpdate <;> cases inv.endpoint <;> simp

lemma applyEvent_cached {V P E A : Type} (inv : Invalidate V P E A) (args : A)
    (data : P) (st : CacheState V P E A) :
    (applyEvent inv args data st).cached =
      match inv.onUpdate with
      | some recipe => recipe st.cached data args
      | none => st.cached := by
  unfold applyEvent
  cases inv.onUpdate <;> cases inv.endpoint <;> simp

lemma updateLog_append {V P E A : Type} (st : CacheState V P E A)
    (l : List (Effect P E A)) (v : V) :
    updateLog (CacheState.mk v (st.trace ++ l)) =
      updateLog st ++ updateLog (CacheState.mk v l) := by
  unfold updateLog
  simp [List.filterMap_append]

lemma dispatchLog_append {V P E A : Type} (st : CacheState V P E A)
    (l : List (Effect P E A)) (v : V) :
    dispatchLog (CacheState.mk v (st.trace ++ l)) =
      dispatchLog st ++ dispatchLog (CacheState.mk v l) := by
  unfold dispatchLog
  simp [List.filterMap_append]

lemma updateLog_applyEvent {V P E A : Type} (inv : Invalidate V P E A)
    (recipe : V → P → A → V) (hu : inv.onUpdate = some recipe) (args : A) (data : P)
    (st : CacheState V P E A) :
    updateLog (applyEvent inv args data st) = updateLog st ++ [data] := by
  unfold applyEvent
  rw [hu]
  cases he : inv.endpoint <;> simp [updateLog, List.filterMap_append]

lemma cached_applyEvent {V P E A : Type} (inv : Invalidate V P E A)
    (recipe : V → P → A → V) (hu : inv.onUpdate = some recipe) (args : A) (data : P)
    (st : CacheState V P E A) :
    (applyEvent inv args data st).cached = recipe st.cached data args := by
  unfold applyEvent
  rw [hu]
  cases he : inv.endpoint <;> simp

lemma applyPushes_cons {V P E A : Type} (inv : Invalidate V P E A) (args : A)
    (d : P) (t : List P) (st : CacheState V P E A) :
    applyPushes inv args (d :: t) st = applyPushes inv args t (pushHandler inv args d st) :=
  rfl

/-- C2: for a descriptor whose `skip` predicate is present, a push event's
effects run if and only if `skip(pushPayload, originalArgs)` returns true;
when it returns false the event is discarded and the state — cached value
and effect trace — is left unchanged, so no recipe runs and no dependent
refetch is dispatched. -/
theorem C2_skip_gates_push_effects {V P E A : Type} (inv : Invalidate V P E A)
    (f : P → A → Bool) (hs : inv.skip = some f) (data : P) (args : A)
    (st : CacheState V P E A) :
    (f data args = false → pushHandler inv args data st = st) ∧
    (f data args = true → pushHandler inv args data st = applyEvent inv args data st) := by
  constructor <;> intro h
  · refine pushHandler_dropped inv args data st ?_
    unfold accepts
    rw [hs]
    simpa using h
  · refine pushHandler_accepted inv args data st ?_
    unfold accepts
    rw [hs]
    simpa using h

theorem C2_witness :
    pushHandler widInv 9 5 ⟨1, []⟩ = (⟨1, []⟩ : CacheState ℕ ℕ Unit ℕ) :=
  (C2_skip_gates_push_effects widInv (fun p a => p == a) rfl 5 9 ⟨1, []⟩).1 rfl

/-- C4: on a descriptor declaring `onUpdate`, the mutation recipe runs
exactly once per accepted push event, in arrival order — the update log
gains exactly the accepted payloads in order — and the cached value is the
left fold of the recipe over the accepted payloads (so pushes `5` then `7`
leave the value at `7`, having passed through `5`). -/
theorem C4_update_once_per_event_in_order {V P E A : Type} (inv : Invalidate V P E A)
    (recipe : V → P → A → V) (hu : inv.onUpdate = some recipe) (args : A)
    (events : List P) (st : CacheState V P E A) :
    updateLog (applyPushes inv args events st)
      = updateLog st ++ events.filter (fun d => accepts inv d args) ∧
    (applyPushes inv args events st).cached
      = (events.filter (fun d => accepts inv d args)).foldl
          (fun v d => recipe v d args) st.cached := by
  induction events generalizing st with
  | nil => simp [applyPushes]
  | cons d t ih =>
      rw [applyPushes_cons]
      by_cases hd : accepts inv d args = true
      · rw [pushHandler_accepted inv args d st hd]
        obtain ⟨ih1, ih2⟩ := ih (applyEvent inv args d st)
        refine ⟨?_, ?_⟩
        · rw [ih1, updateLog_applyEvent inv recipe hu]
          simp [List.filter_cons, hd]
        · rw [ih2, cached_applyEvent inv recipe hu]
          simp [List.filter_cons, hd]
      · have hd' : accepts inv d args = false := by simpa using hd
        rw [pushHandler_dropped inv args d st hd']
        obtain ⟨ih1, ih2⟩ := ih st
        refine ⟨?_, ?_⟩
        · rw [ih1]
          simp [List.filter_cons, hd']
        · rw [ih2]
          simp [List.filter_cons, hd']

theorem C4_witness :
    updateLog (applyPushes balInv 0 [5, 7] ⟨0, []⟩) = [5, 7] ∧
    (applyPushes balInv 0 [5, 7] ⟨0, []⟩).cached = 7 := by
  have h := C4_update_once_per_event_in_order balInv (fun _ p _ => p) rfl 0 [5, 7] ⟨0, []⟩
  exact ⟨by rw [h.1]; rfl, by rw [h.2]; decide⟩

/-- C5: on a descriptor declaring `endpoint` (and no `onUpdate`), an
accepted push event dispatches exactly one
`initiate(originalArgs, { subscribe: false, forceRefetch: true })` action
for the dependent endpoint and leaves the entry's own cached value
untouched. -/
theorem C5_endpoint_forced_refetch {V P E A : Type} (inv : Invalidate V P E A)
    (factory : Unit → E) (he : inv.endpoint = some factory) (hu : inv.onUpdate = none)
    (data : P) (args : A) (ha : accepts inv data args = true) (st : CacheState V P E A) :
    pushHandler inv args data st
      = ⟨st.cached, st.trace ++ [Effect.dispatch ⟨factory (), args, false, true⟩]⟩ := by
  rw [pushHandler_accepted inv args data st ha]
  unfold applyEvent
  rw [hu, he]

theorem C5_witness :
    pushHandler depInv 3 5 ⟨1, []⟩
      = (⟨1, [Effect.dispatch ⟨42, 3, false, true⟩]⟩ : CacheState ℕ ℕ ℕ ℕ) :=
  C5_endpoint_forced_refetch depInv (fun _ => 42) rfl rfl 5 3 rfl ⟨1, []⟩

/-- C9: the exactly-one-of invariant on descriptors is not enforced at
runtime — for a descriptor carrying both `onUpdate` and `endpoint`, an
accepted push applies both effects, the cached-value mutation first and
the forced-refetch dispatch second. -/
theorem C9_both_effects_update_then_dispatch {V P E A : Type} (inv : Invalidate V P E A)
    (recipe : V → P → A → V) (factory : Unit → E)
    (hu : inv.onUpdate = some recipe) (he : inv.endpoint = some factory)
    (data : P) (args : A) (ha : accepts inv data args = true) (st : CacheState V P E A) :
    pushHandler inv args data st
      = ⟨recipe st.cached data args,
         st.trace ++ [Effect.update data,
                      Effect.dispatch ⟨factory (), args, false, true⟩]⟩ := by
  rw [pushHandler_accepted inv args data st ha]
  unfold applyEvent
  rw [hu, he]
  simp

theorem C9_witness :
    pushHandler bothInv 3 5 ⟨1, []⟩
      = (⟨5, [Effect.update 5, Effect.dispatch ⟨42, 3, false, true⟩]⟩
          : CacheState ℕ ℕ ℕ ℕ) :=
  C9_both_effects_update_then_dispatch bothInv (fun _ p _ => p) (fun _ => 42)
    rfl rfl 5 3 rfl ⟨1, []⟩

/-! Helper lemmas about the lifecycle model. -/

lemma takeThrough_all_false (throws : ℕ → Bool) (ht : ∀ x, throws x = false)
    (l : List ℕ) : takeThrough throws l = l := by
  induction l with
  | nil => rfl
  | cons x t ih => simp [takeThrough, ht x, ih]

lemma takeThrough_append (throws : ℕ → Bool) (l₁ : List ℕ) (x : ℕ) (l₂ : List ℕ)
    (h₁ : ∀ y ∈ l₁, throws y = false) (hx : throws x = true) :
    takeThrough throws (l₁ ++ x :: l₂) = l₁ ++ [x] := by
  induction l₁ with
  | nil => simp [takeThrough, hx]
  | cons a t ih =>
      have ha : throws a = false := h₁ a (by simp)
      have ih' := ih fun y hy => h₁ y (by simp [hy])
      simp [takeThrough, ha, ih']

lemma takeThrough_isPre (throws : ℕ → Bool) (l : List ℕ) :
    ∃ t, l = takeThrough throws l ++ t := by
  induction l with
  | nil => exact ⟨[], rfl⟩
  | cons a t ih =>
      cases hh : throws a with
      | true => exact ⟨t, by simp [takeThrough, hh]⟩
      | false =>
          obtain ⟨r, hr⟩ := ih
          refine ⟨r, ?_⟩
          simp only [takeThrough, hh, Bool.false_eq_true, if_false, List.cons_append,
            List.cons.injEq, true_and]
          exact hr

lemma count_filterMap_eq {α β : Type} [DecidableEq α] [DecidableEq β]
    (f : α → Option β) (b : β) (l : List α) :
    (l.filterMap f).count b = (l.filter fun a => decide (f a = some b)).length := by
  induction l with
  | nil => rfl
  | cons a t ih =>
      rw [List.filterMap_cons]
      cases hfa : f a with
      | none => simp [List.filter_cons, hfa, ih]
      | some c =>
          by_cases hcb : c = b
          · subst hcb
            simp [List.count_cons, List.filter_cons, hfa, ih]
          · simp [List.count_cons, List.filter_cons, hfa, hcb, ih]

lemma filterMap_filter_of_none {α β : Type} [DecidableEq α]
    (f : α → Option β) (i : α) (hi : f i = none) (l : List α) :
    ((l.filter fun j => decide (j ≠ i)).filterMap f) = l.filterMap f := by
  induction l with
  | nil => rfl
  | cons a t ih =>
      rw [List.filter_cons]
      by_cases ha : a = i
      · subst ha
        rw [if_neg (by simp), ih, List.filterMap_cons, hi]
      · rw [if_pos (by simp [ha]), List.filterMap_cons, List.filterMap_cons, ih]

lemma handleOf_eq_some_iff (o : CallOutcome) (x : ℕ) :
    handleOf o = some x ↔ o = CallOutcome.resolves (some x) := by
  cases o with
  | rejects => simp [handleOf]
  | resolves d => cases d <;> simp [handleOf]

lemma run_calls_loaded {V P E A : Type} (invalidates : List (Invalidate V P E A))
    (qargs : A) (s : Schedule invalidates.length) (throws : ℕ → Bool)
    (hl : s.loadedResolves = true) :
    (run invalidates qargs s throws).calls
      = invalidates.map fun inv =>
          ⟨inv.command, inv.service, [fun data st => pushHandler inv qargs data st]⟩ := by
  unfold run
  rw [hl]
  rfl

lemma run_collected_loaded {V P E A : Type} (invalidates : List (Invalidate V P E A))
    (qargs : A) (s : Schedule invalidates.length) (throws : ℕ → Bool)
    (hl : s.loadedResolves = true) :
    (run invalidates qargs s throws).collected
      = (s.settleOrder.take s.settledBeforeTeardown).filterMap
          fun i => handleOf (s.outcomes i) := by
  unfold run
  rw [hl]
  rfl

lemma run_recordedEver_loaded {V P E A : Type} (invalidates : List (Invalidate V P E A))
    (qargs : A) (s : Schedule invalidates.length) (throws : ℕ → Bool)
    (hl : s.loadedResolves = true) :
    (run invalidates qargs s throws).recordedEver
      = s.settleOrder.filterMap fun i => handleOf (s.outcomes i) := by
  unfold run
  rw [hl]
  rfl

lemma run_invoked_loaded {V P E A : Type} (invalidates : List (Invalidate V P E A))
    (qargs : A) (s : Schedule invalidates.length) (throws : ℕ → Bool)
    (hl : s.loadedResolves = true) :
    (run invalidates qargs s throws).invoked
      = takeThrough throws ((s.settleOrder.take s.settledBeforeTeardown).filterMap
          fun i => handleOf (s.outcomes i)) := by
  unfold run
  rw [hl]
  rfl

lemma run_not_loaded {V P E A : Type} (invalidates : List (Invalidate V P E A))
    (qargs : A) (s : Schedule invalidates.length) (throws : ℕ → Bool)
    (hl : s.loadedResolves = false) :
    run invalidates qargs s throws = ⟨[], [], [], [], true⟩ := by
  unfold run
  rw [hl]
  rfl

lemma run_awaitedRemoved {V P E A : Type} (invalidates : List (Invalidate V P E A))
    (qargs : A) (s : Schedule invalidates.length) (throws : ℕ → Bool) :
    (run invalidates qargs s throws).awaitedRemoved = true := by
  unfold run
  cases s.loadedResolves <;> rfl

/-- C1 is refuted on the code: in the valid interleaving `lateSched` —
descriptor 0's subscribe call rejects, `Promise.all` therefore settles
after that one settlement, the cache entry is removed and the teardown
`forEach` runs over the still-empty `unsubscribes`, and only then does
descriptor 1's subscribe call resolve with handle 7 — the handle is
successfully established and recorded, but the teardown never invokes it,
so it is not closed even eventually. -/
theorem C1_counterexample :
    lateSched.Valid ∧
    lateSched.outcomes 1 = CallOutcome.resolves (some 7) ∧
    (run exInvs 0 lateSched (fun _ => false)).recordedEver = [7] ∧
    (run exInvs 0 lateSched (fun _ => false)).invoked = [] :=
  ⟨⟨by decide, by decide⟩, by decide, by decide, by decide⟩

/-- C1 (amended): deactivation invokes, exactly once each, every handle
whose subscribe call resolved before the teardown pass runs; when no
subscribe call rejects this is every established handle, since the
teardown pass cannot start before all activations settle.  (A handle
resolving only after the teardown pass is recorded but never invoked —
see the counterexample.) -/
theorem C1_closes_each_settled_handle_once {V P E A : Type}
    (invalidates : List (Invalidate V P E A)) (qargs : A)
    (s : Schedule invalidates.length) (throws : ℕ → Bool)
    (hv : s.Valid) (hl : s.loadedResolves = true)
    (ht : ∀ x, throws x = false) (x : ℕ) :
    (run invalidates qargs s throws).invoked.count x
      = ((s.settleOrder.take s.settledBeforeTeardown).filter
          fun i => decide (s.outcomes i = CallOutcome.resolves (some x))).length ∧
    ((∀ i, s.outcomes i ≠ CallOutcome.rejects) →
      (run invalidates qargs s throws).invoked.count x
        = ((List.finRange invalidates.length).filter
            fun i => decide (s.outcomes i = CallOutcome.resolves (some x))).length) := by
  have hfilter : ∀ l : List (Fin invalidates.length),
      (l.filter fun i => decide (handleOf (s.outcomes i) = some x))
        = l.filter fun i => decide (s.outcomes i = CallOutcome.resolves (some x)) := by
    intro l
    refine List.filter_congr fun y _ => ?_
    simp [handleOf_eq_some_iff]
  have hbase : (run invalidates qargs s throws).invoked.count x
      = ((s.settleOrder.take s.settledBeforeTeardown).filter
          fun i => decide (s.outcomes i = CallOutcome.resolves (some x))).length := by
    rw [run_invoked_loaded invalidates qargs s throws hl,
      takeThrough_all_false throws ht, count_filterMap_eq, hfilter]
  refine ⟨hbase, fun hnr => ?_⟩
  rw [hbase]
  have hnone : s.settleOrder.findIdx?
      (fun i => decide (s.outcomes i = CallOutcome.rejects)) = none := by
    rw [List.findIdx?_eq_none_iff]
    intro y _
    simp [hnr y]
  have hlen : promiseAllSettled s = s.settleOrder.length := by
    unfold promiseAllSettled
    rw [hnone]
  have htake : s.settleOrder.take s.settledBeforeTeardown = s.settleOrder :=
    List.take_of_length_le (by rw [← hlen]; exact hv.2)
  rw [htake]
  exact (hv.1.filter _).length_eq

theorem C1_witness :
    (run exInvs 0 fullSched (fun _ => false)).invoked.count 10 = 1 := by
  have h := C1_closes_each_settled_handle_once exInvs 0 fullSched (fun _ => false)
    ⟨by decide, by decide⟩ rfl (fun _ => rfl) 10
  rw [h.1]
  decide

/-- C3: once the cache entry's data has loaded, activation issues exactly
one RPC subscribe call per descriptor, in descriptor order, each of shape
`call(descriptor.command, descriptor.service, [pushHandler])` — the `args`
array holds exactly the push handler — and the list of issued calls is the
same for every valid interleaving, whatever the order or outcome of the
individual acknowledgments. -/
theorem C3_one_subscribe_call_per_descriptor {V P E A : Type}
    (invalidates : List (Invalidate V P E A)) (qargs : A)
    (s : Schedule invalidates.length) (throws : ℕ → Bool)
    (hv : s.Valid) (hl : s.loadedResolves = true) :
    (run invalidates qargs s throws).calls
      = invalidates.map (fun inv =>
          ⟨inv.command, inv.service, [fun data st => pushHandler inv qargs data st]⟩) ∧
    (run invalidates qargs s throws).calls.length = invalidates.length := by
  refine ⟨run_calls_loaded invalidates qargs s throws hl, ?_⟩
  rw [run_calls_loaded invalidates qargs s throws hl, List.length_map]

theorem C3_witness :
    (run exInvs 0 fullSched (fun _ => false)).calls.length = 2 :=
  (C3_one_subscribe_call_per_descriptor exInvs 0 fullSched (fun _ => false)
    ⟨by decide, by decide⟩ rfl).2

/-- C6: a subscribe call that resolves without a truthy `data` field
contributes no unsubscribe handle: the handles recorded (ever, and at
teardown time) are exactly those of the other settlements, teardown still
awaits the removed signal, and the handles invoked are an initial segment
of the collected ones — the data-less descriptor gets no cleanup call and
teardown completes normally over the partially-activated set. -/
theorem C6_missing_handle_no_cleanup {V P E A : Type}
    (invalidates : List (Invalidate V P E A)) (qargs : A)
    (s : Schedule invalidates.length) (throws : ℕ → Bool)
    (hv : s.Valid) (hl : s.loadedResolves = true)
    (i : Fin invalidates.length) (hi : s.outcomes i = CallOutcome.resolves none) :
    (run invalidates qargs s throws).recordedEver
      = ((s.settleOrder.filter fun j => decide (j ≠ i)).filterMap
          fun j => handleOf (s.outcomes j)) ∧
    (run invalidates qargs s throws).collected
      = (((s.settleOrder.take s.settledBeforeTeardown).filter
            fun j => decide (j ≠ i)).filterMap
          fun j => handleOf (s.outcomes j)) ∧
    (run invalidates qargs s throws).awaitedRemoved = true ∧
    ∃ t, (run invalidates qargs s throws).collected
          = (run invalidates qargs s throws).invoked ++ t := by
  have hnone : handleOf (s.outcomes i) = none := by rw [hi]; rfl
  refine ⟨?_, ?_, run_awaitedRemoved invalidates qargs s throws, ?_⟩
  · rw [run_recordedEver_loaded invalidates qargs s throws hl]
    exact (filterMap_filter_of_none _ i hnone _).symm
  · rw [run_collected_loaded invalidates qargs s throws hl]
    exact (filterMap_filter_of_none _ i hnone _).symm
  · rw [run_collected_loaded invalidates qargs s throws hl,
      run_invoked_loaded invalidates qargs s throws hl]
    exact takeThrough_isPre throws _

theorem C6_witness :
    (run exInvs 0 noneSched (fun _ => false)).recordedEver
      = ((noneSched.settleOrder.filter fun j => decide (j ≠ (0 : Fin 2))).filterMap
          fun j => handleOf (noneSched.outcomes j)) :=
  (C6_missing_handle_no_cleanup exInvs 0 noneSched (fun _ => false)
    ⟨by decide, by decide⟩ rfl (0 : Fin 2) (by decide)).1

/-- C7: one descriptor's subscribe call rejecting does not change the set
of calls issued — every descriptor, the rejecting one included, is called
exactly once (no retry) — and deactivation still runs: the removed signal
is awaited and, when no unsubscribe handle throws, every collected handle
is invoked. -/
theorem C7_reject_not_fatal {V P E A : Type}
    (invalidates : List (Invalidate V P E A)) (qargs : A)
    (s : Schedule invalidates.length) (throws : ℕ → Bool)
    (hv : s.Valid) (hl : s.loadedResolves = true)
    (i : Fin invalidates.length) (hi : s.outcomes i = CallOutcome.rejects)
    (ht : ∀ x, throws x = false) :
    (run invalidates qargs s throws).calls
      = invalidates.map (fun inv =>
          ⟨inv.command, inv.service, [fun data st => pushHandler inv qargs data st]⟩) ∧
    (run invalidates qargs s throws).calls.length = invalidates.length ∧
    (run invalidates qargs s throws).awaitedRemoved = true ∧
    (run invalidates qargs s throws).invoked
      = (run invalidates qargs s throws).collected := by
  refine ⟨run_calls_loaded invalidates qargs s throws hl, ?_,
    run_awaitedRemoved invalidates qargs s throws, ?_⟩
  · rw [run_calls_loaded invalidates qargs s throws hl, List.length_map]
  · rw [run_invoked_loaded invalidates qargs s throws hl,
      run_collected_loaded invalidates qargs s throws hl,
      takeThrough_all_false throws ht]

theorem C7_witness :
    (run exInvs 0 rejSched (fun _ => false)).calls.length = 2 ∧
    (run exInvs 0 rejSched (fun _ => false)).invoked
      = (run exInvs 0 rejSched (fun _ => false)).collected := by
  have h := C7_reject_not_fatal exInvs 0 rejSched (fun _ => false)
    ⟨by decide, by decide⟩ rfl (0 : Fin 2) (by decide) (fun _ => rfl)
  exact ⟨h.2.1, h.2.2.2⟩

/-- C8: when the cache entry is removed before its data ever loads — the
`cacheDataLoaded` awaitable rejects — the handler issues zero RPC
subscribe calls, records no handle and invokes none, and its teardown path
still awaits the removed signal before finishing. -/
theorem C8_removed_before_loaded {V P E A : Type}
    (invalidates : List (Invalidate V P E A)) (qargs : A)
    (s : Schedule invalidates.length) (throws : ℕ → Bool)
    (hl : s.loadedResolves = false) :
    (run invalidates qargs s throws).calls = [] ∧
    (run invalidates qargs s throws).recordedEver = [] ∧
    (run invalidates qargs s throws).invoked = [] ∧
    (run invalidates qargs s throws).awaitedRemoved = true := by
  rw [run_not_loaded invalidates qargs s throws hl]
  exact ⟨rfl, rfl, rfl, rfl⟩

theorem C8_witness :
    (run exInvs 0 noLoadSched (fun _ => false)).calls = [] ∧
    (run exInvs 0 noLoadSched (fun _ => false)).recordedEver = [] ∧
    (run exInvs 0 noLoadSched (fun _ => false)).invoked = [] ∧
    (run exInvs 0 noLoadSched (fun _ => false)).awaitedRemoved = true :=
  C8_removed_before_loaded exInvs 0 noLoadSched (fun _ => false) rfl

/-- C10: the teardown `forEach` invokes the collected handles sequentially
in the order their activations resolved (the order they were pushed into
`unsubscribes`); if invoking one handle throws, the handles after it in
that order are never invoked: when the collected list splits as
`l₁ ++ x :: l₂` with no handle of `l₁` throwing and `x` throwing, exactly
`l₁ ++ [x]` is invoked. -/
theorem C10_throwing_handle_stops_teardown {V P E A : Type}
    (invalidates : List (Invalidate V P E A)) (qargs : A)
    (s : Schedule invalidates.length) (throws : ℕ → Bool)
    (hl : s.loadedResolves = true)
    (l₁ : List ℕ) (x : ℕ) (l₂ : List ℕ)
    (hc : (run invalidates qargs s throws).collected = l₁ ++ x :: l₂)
    (h₁ : ∀ y ∈ l₁, throws y = false) (hx : throws x = true) :
    (run invalidates qargs s throws).invoked = l₁ ++ [x] := by
  rw [run_collected_loaded invalidates qargs s throws hl] at hc
  rw [run_invoked_loaded invalidates qargs s throws hl, hc]
  exact takeThrough_append throws l₁ x l₂ h₁ hx

theorem C10_witness :
    (run exInvs3 0 throwSched (fun y => y == 11)).invoked = [10, 11] :=
  C10_throwing_handle_stops_teardown exInvs3 0 throwSched (fun y => y == 11) rfl
    [10] 11 [12] rfl (by decide) rfl

end CacheInvalidate
